import Mathlib

/-!
Shallow embedding of the airbitz-core general-configuration cache
(src/abcd/General.cpp), the account synchronization orchestration
(src/abcd/account/Account.cpp) and the login repository discovery
surface (src/abcd/login/Login.hpp, src/abcd/account/Account.cpp),
together with theorems checking the specification claims against it.

Machine integers are modelled as Nat. The C++ code stores the bucket
means of the fee aggregator in doubles, but every value it ever assigns
to them is produced by unsigned integer division of a uint64_t, so the
integral model is exact for inputs inside double precision. A fee
sample enters the aggregator already converted to integral base units,
mirroring the cast (uint64_t)(fee * 100000000.0) in the source; for the
concrete sample values used below that conversion is exact in IEEE
double arithmetic. The filesystem and the remote configuration service
are modelled as an explicit World state: a file is an optional content
value (paired with a modification time for the general file, since the
source gates on file age), and the remote fetch outcome is an optional
document, none meaning the fetch fails. Functions that the source lets
touch the filesystem return the updated World; a ghost boolean records
whether the branch that calls the remote service was taken.
-/

namespace Abcd

/-- Parsed view of the static bitcoin fee table, with the field defaults
hard-coded in BitcoinFeesJson of src/abcd/General.cpp: these values are
what the accessors return when the key or the whole file is missing. -/
structure BitcoinFeesJson where
  confirmFees1 : Nat := 73210
  confirmFees2 : Nat := 62110
  confirmFees3 : Nat := 51098
  confirmFees4 : Nat := 46001
  confirmFees5 : Nat := 31002
  confirmFees6 : Nat := 26002
  highFeeBlock : Nat := 1
  standardFeeBlockHigh : Nat := 2
  standardFeeBlockLow : Nat := 3
  lowFeeBlock : Nat := 4
  targetFeePercentage : Rat := 0.25
  deriving DecidableEq

/-- Parsed view of the fee-estimate cache document, defaults all zero,
matching EstimateFeesJson of src/abcd/General.cpp. -/
structure EstimateFeesJson where
  confirmFees1 : Nat := 0
  confirmFees2 : Nat := 0
  confirmFees3 : Nat := 0
  confirmFees4 : Nat := 0
  confirmFees5 : Nat := 0
  confirmFees6 : Nat := 0
  deriving DecidableEq

/-- One server-score record, matching ServerScoreJson of
src/abcd/General.cpp. -/
structure ServerScoreJson where
  serverUrl : String := ""
  serverScore : Int := 0
  deriving DecidableEq

/-- Parsed view of the general configuration document, matching
GeneralJson of src/abcd/General.cpp. A JSON array may hold entries that
are not strings; such an entry is modelled as none, since the source
treats it specially (skipped by the server accessors, treated as the
empty string by the score reconciliation). A missing key yields the
empty list or the all-default fee table. -/
structure GeneralJson where
  bitcoinServers : List (Option String) := []
  syncServers : List (Option String) := []
  bitcoinFees : BitcoinFeesJson := {}
  deriving DecidableEq

/-- GENERAL_ACCEPTABLE_INFO_FILE_AGE_SECS from src/abcd/General.cpp. -/
def generalAcceptableInfoFileAgeSecs : Nat := 2

/-- ESTIMATED_FEES_ACCEPTABLE_INFO_FILE_AGE_SECS from
src/abcd/General.cpp. -/
def estimatedFeesAcceptableInfoFileAgeSecs : Nat := 3 * 60 * 60

/-- FALLBACK_BITCOIN_SERVERS from src/abcd/General.cpp. -/
def fallbackBitcoinServers : List String :=
  ["tcp://obelisk.airbitz.co:9091",
   "stratum://stratum-az-wusa.airbitz.co:50001",
   "stratum://stratum-az-wjapan.airbitz.co:50001",
   "stratum://stratum-az-neuro.airbitz.co:50001"]

/-- TESTNET_BITCOIN_SERVERS from src/abcd/General.cpp. -/
def testnetBitcoinServers : List String :=
  ["tcp://obelisk-testnet.airbitz.co:9091"]

/-- The hard-coded sync-server fallback pushed by generalSyncServers. -/
def fallbackSyncServer : String := "https://git.sync.airbitz.co/repos"

/-- World state threaded through the configuration-cache functions:
gContext models whether the global context pointer is set, the three
optional fields model the three cache files (the general file carries
its modification time, which generalUpdate compares against now), and
remote models the outcome loginServerGetGeneral would produce, none
meaning the fetch fails. -/
structure World where
  gContext : Bool
  generalFile : Option (GeneralJson × Nat) := none
  scoresFile : Option (List ServerScoreJson) := none
  feeFile : Option EstimateFeesJson := none
  now : Nat := 0
  remote : Option GeneralJson := none
  deriving DecidableEq

/-- The code point of a character with an ASCII upper-case letter
folded to lower case, modelling the per-character tolower of
boost::iequals under the default locale. -/
def lowerCodePoint (c : Char) : Nat :=
  if 65 ≤ c.toNat ∧ c.toNat ≤ 90 then c.toNat + 32 else c.toNat

/-- boost::iequals as used on server URLs: case-insensitive string
equality, character by character. -/
def iequals (a b : String) : Bool :=
  a.data.map lowerCodePoint == b.data.map lowerCodePoint

/-- The score-reconciliation loop inlined in generalUpdate
(src/abcd/General.cpp lines 160 to 193): walk the freshly fetched
server array, treating a non-string entry as the empty string, and
append a zero-score record for every URL that has no case-insensitive
match in the list built so far. -/
def serverScoresReconcile (scores : List ServerScoreJson)
    (servers : List (Option String)) : List ServerScoreJson :=
  servers.foldl (fun acc entry =>
    let serverUrlNew := entry.getD ""
    if acc.any (fun ssj => iequals ssj.serverUrl serverUrlNew) then acc
    else acc ++ [{ serverUrl := serverUrlNew, serverScore := 0 }]) scores

/-- serverScoresLoad from src/abcd/General.cpp: empty when the context
is unset or the scores file is missing, otherwise the file content. -/
def serverScoresLoad (w : World) : List ServerScoreJson :=
  if w.gContext = false then []
  else
    match w.scoresFile with
    | none => []
    | some l => l

/-- generalUpdate from src/abcd/General.cpp: when the general file is
missing or older than the threshold, fetch the remote document, persist
it (stamping the current time), reload it from the persisted copy, and
persist the reconciled score list; otherwise do nothing. Returns the
new world, a ghost flag recording whether the remote service was
called, and the success status (false exactly when the fetch failed).
The source dereferences the global context unconditionally here, so
this model covers the gContext = true executions. -/
def generalUpdate (w : World) : World × Bool × Bool :=
  if (match w.generalFile with
      | none => true
      | some ft => decide (ft.2 + generalAcceptableInfoFileAgeSecs < w.now)) then
    match w.remote with
    | none => (w, true, false)
    | some doc =>
      let w1 : World := { w with generalFile := some (doc, w.now) }
      let scores := serverScoresLoad w1
      let scores2 := serverScoresReconcile scores doc.bitcoinServers
      ({ w1 with scoresFile := some scores2 }, true, true)
  else (w, false, true)

/-- generalLoad from src/abcd/General.cpp: default document when the
context is unset; otherwise, when the file is missing, run
generalUpdate (its status is only logged) and then load whatever the
file now holds, falling back to the default document when it is still
missing. Returns the document, the new world, and the ghost
remote-call flag. -/
def generalLoad (w : World) : GeneralJson × World × Bool :=
  if w.gContext = false then ({}, w, false)
  else
    match w.generalFile with
    | some ft => (ft.1, w, false)
    | none =>
      let r := generalUpdate w
      match r.1.generalFile with
      | some ft => (ft.1, r.1, r.2.1)
      | none => ({}, r.1, r.2.1)

/-- estimateFeesLoad from src/abcd/General.cpp: default document when
the context is unset or the fee cache file is missing, otherwise the
file content. -/
def estimateFeesLoad (w : World) : EstimateFeesJson :=
  if w.gContext = false then {}
  else
    match w.feeFile with
    | none => {}
    | some d => d

/-- The six merged confirm-fee slots of generalBitcoinFeeInfo before
the monotone repair. -/
structure ConfirmFees where
  f1 : Nat
  f2 : Nat
  f3 : Nat
  f4 : Nat
  f5 : Nat
  f6 : Nat
  deriving DecidableEq

/-- The merge step of generalBitcoinFeeInfo (src/abcd/General.cpp lines
288 to 299): each slot takes the live estimate when it is nonzero,
otherwise the static table value. -/
def confirmFeesMerge (feeJson : BitcoinFeesJson) (est : EstimateFeesJson) :
    ConfirmFees :=
  { f1 := if est.confirmFees1 ≠ 0 then est.confirmFees1 else feeJson.confirmFees1
    f2 := if est.confirmFees2 ≠ 0 then est.confirmFees2 else feeJson.confirmFees2
    f3 := if est.confirmFees3 ≠ 0 then est.confirmFees3 else feeJson.confirmFees3
    f4 := if est.confirmFees4 ≠ 0 then est.confirmFees4 else feeJson.confirmFees4
    f5 := if est.confirmFees5 ≠ 0 then est.confirmFees5 else feeJson.confirmFees5
    f6 := if est.confirmFees6 ≠ 0 then est.confirmFees6 else feeJson.confirmFees6 }

/-- The monotone repair of generalBitcoinFeeInfo (src/abcd/General.cpp
lines 307 to 316): sequentially clamp each slot to the already repaired
previous slot. -/
def confirmFeesClamp (c : ConfirmFees) : ConfirmFees :=
  let g2 := if c.f2 > c.f1 then c.f1 else c.f2
  let g3 := if c.f3 > g2 then g2 else c.f3
  let g4 := if c.f4 > g3 then g3 else c.f4
  let g5 := if c.f5 > g4 then g4 else c.f5
  let g6 := if c.f6 > g5 then g5 else c.f6
  { f1 := c.f1, f2 := g2, f3 := g3, f4 := g4, f5 := g5, f6 := g6 }

/-- The effective fee table returned by generalBitcoinFeeInfo. -/
structure BitcoinFeeInfo where
  confirmFees1 : Nat
  confirmFees2 : Nat
  confirmFees3 : Nat
  confirmFees4 : Nat
  confirmFees5 : Nat
  confirmFees6 : Nat
  lowFeeBlock : Nat
  standardFeeBlockLow : Nat
  standardFeeBlockHigh : Nat
  highFeeBlock : Nat
  targetFeePercentage : Rat
  deriving DecidableEq

/-- The pure core of generalBitcoinFeeInfo (src/abcd/General.cpp lines
280 to 324): merge the live estimates over the static table, copy the
block thresholds, then apply the monotone repair. -/
def bitcoinFeeInfoOf (feeJson : BitcoinFeesJson) (est : EstimateFeesJson) :
    BitcoinFeeInfo :=
  let c := confirmFeesClamp (confirmFeesMerge feeJson est)
  { confirmFees1 := c.f1
    confirmFees2 := c.f2
    confirmFees3 := c.f3
    confirmFees4 := c.f4
    confirmFees5 := c.f5
    confirmFees6 := c.f6
    lowFeeBlock := feeJson.lowFeeBlock
    standardFeeBlockLow := feeJson.standardFeeBlockLow
    standardFeeBlockHigh := feeJson.standardFeeBlockHigh
    highFeeBlock := feeJson.highFeeBlock
    targetFeePercentage := feeJson.targetFeePercentage }

/-- generalBitcoinFeeInfo from src/abcd/General.cpp as a state
function: load the general document (possibly refreshing), load the
fee-estimate cache, and build the effective table. -/
def generalBitcoinFeeInfo (w : World) : BitcoinFeeInfo × World :=
  let r := generalLoad w
  (bitcoinFeeInfoOf r.1.bitcoinFees (estimateFeesLoad r.2.1), r.2.1)

/-- generalBitcoinServers from src/abcd/General.cpp: the testnet list
on testnet; otherwise the string entries of the loaded server array,
falling back to the hard-coded list when that leaves nothing. -/
def generalBitcoinServers (testnet : Bool) (w : World) :
    List String × World :=
  if testnet then (testnetBitcoinServers, w)
  else
    let r := generalLoad w
    let out := r.1.bitcoinServers.filterMap id
    (if out.isEmpty then fallbackBitcoinServers else out, r.2.1)

/-- generalSyncServers from src/abcd/General.cpp: the string entries of
the loaded sync-server array, falling back to the hard-coded endpoint
when that leaves nothing. -/
def generalSyncServers (w : World) : List String × World :=
  let r := generalLoad w
  let out := r.1.syncServers.filterMap id
  (if out.isEmpty then [fallbackSyncServer] else out, r.2.1)

/-- The process-wide fee-aggregator state of src/abcd/General.cpp lines
232 to 234: the lazily set initialization flag and, per bucket index,
the stored mean and the response count. -/
structure FeeState where
  estimatedFeesInitialized : Bool
  estimatedFees : Nat → Nat
  estimatedFeesNumResponses : Nat → Nat

/-- The state at process start: C++ zero-initializes the static arrays
and the flag. -/
def feeStateInit : FeeState :=
  { estimatedFeesInitialized := false
    estimatedFees := fun _ => 0
    estimatedFeesNumResponses := fun _ => 0 }

/-- The same zeroed buckets with the flag already set; the first update
step turns feeStateInit into this state. -/
def feeStateZero : FeeState :=
  { estimatedFeesInitialized := true
    estimatedFees := fun _ => 0
    estimatedFeesNumResponses := fun _ => 0 }

/-- The lazy initialization at the top of generalEstimateFeesUpdate:
on the first call, zero buckets 1 to 5 and set the flag. -/
def feeStateLazyInit (s : FeeState) : FeeState :=
  if s.estimatedFeesInitialized then s
  else
    { estimatedFeesInitialized := true
      estimatedFees := fun i => if 1 ≤ i ∧ i ≤ 5 then 0 else s.estimatedFees i
      estimatedFeesNumResponses :=
        fun i => if 1 ≤ i ∧ i ≤ 5 then 0 else s.estimatedFeesNumResponses i }

/-- The persistence gate of generalEstimateFeesUpdate
(src/abcd/General.cpp lines 258 to 262): all five stored means are
strictly positive. Note the source tests the means, not the counts. -/
def allBucketMeansPositive (s : FeeState) : Prop :=
  0 < s.estimatedFees 1 ∧ 0 < s.estimatedFees 2 ∧ 0 < s.estimatedFees 3 ∧
  0 < s.estimatedFees 4 ∧ 0 < s.estimatedFees 5

instance (s : FeeState) : Decidable (allBucketMeansPositive s) := by
  unfold allBucketMeansPositive
  infer_instance

/-- The derived fee-estimate document written by
generalEstimateFeesUpdate (src/abcd/General.cpp lines 265 to 271): the
setters are called for buckets 1 to 5 only, so confirmFees6 keeps its
default 0. -/
def estimateFeesDocOf (s : FeeState) : EstimateFeesJson :=
  { confirmFees1 := s.estimatedFees 1
    confirmFees2 := s.estimatedFees 2
    confirmFees3 := s.estimatedFees 3
    confirmFees4 := s.estimatedFees 4
    confirmFees5 := s.estimatedFees 5
    confirmFees6 := 0 }

/-- generalEstimateFeesUpdate from src/abcd/General.cpp: lazily
initialize, fold the base-unit sample into the bucket by
tempFee = oldMean * oldCount + sample followed by the unsigned integer
division tempFee / (oldCount + 1), and, when all five means are then
strictly positive, write the derived document to the fee cache file
(modelled as the optional file content passed alongside the state). -/
def generalEstimateFeesUpdate (blocks sample : Nat) (s : FeeState)
    (file : Option EstimateFeesJson) : FeeState × Option EstimateFeesJson :=
  let s0 := feeStateLazyInit s
  let oldMean := s0.estimatedFees blocks
  let oldCount := s0.estimatedFeesNumResponses blocks
  let tempFee := oldMean * oldCount + sample
  let newCount := oldCount + 1
  let s1 : FeeState :=
    { s0 with
      estimatedFees :=
        fun i => if i = blocks then tempFee / newCount else s0.estimatedFees i
      estimatedFeesNumResponses :=
        fun i => if i = blocks then newCount else s0.estimatedFeesNumResponses i }
  if allBucketMeansPositive s1 then (s1, some (estimateFeesDocOf s1))
  else (s1, file)

/-- One submission applied to the paired in-memory state and fee cache
file: the step function of a submission sequence. -/
def feesStep (st : FeeState × Option EstimateFeesJson) (p : Nat × Nat) :
    FeeState × Option EstimateFeesJson :=
  generalEstimateFeesUpdate p.1 p.2 st.1 st.2

/-- Run a whole submission sequence, each entry a bucket index paired
with a base-unit sample, from the process-start state with no fee cache
file. -/
def feesRun (subs : List (Nat × Nat)) : FeeState × Option EstimateFeesJson :=
  subs.foldl feesStep (feeStateInit, none)

/-- One step of the truncated running mean the source computes: the
pair holds the current mean and count. -/
def runningMeanStep (mc : Nat × Nat) (sample : Nat) : Nat × Nat :=
  ((mc.1 * mc.2 + sample) / (mc.2 + 1), mc.2 + 1)

/-- The truncated running mean and count of a sample list, folded in
order from the zero state. -/
def runningMean (samples : List Nat) : Nat × Nat :=
  samples.foldl runningMeanStep (0, 0)

/-- The samples a submission sequence sends to one bucket, in order. -/
def bucketSamples (b : Nat) (subs : List (Nat × Nat)) : List Nat :=
  (subs.filter (fun p => p.1 == b)).map (fun p => p.2)

/-- Status result, modelling abcd::Status: ok or an error message. -/
inductive Status where
  | ok : Status
  | error : String → Status
  deriving DecidableEq

/-- The in-memory account state relevant to Account::sync: the loaded
wallets collection, modelled as the list of wallet identifiers. -/
structure Account where
  wallets : List String
  deriving DecidableEq

/-- Account::sync from src/abcd/account/Account.cpp: ABC_CHECK the
repository pull (whose outcome is passed in as the status produced by
syncRepo together with the dirty flag it reports on success); on pull
failure return that failure at once; otherwise invoke load exactly when
dirty is set. Returns the in-memory state after the call, the returned
status, and a ghost flag recording whether load was invoked. -/
def Account.sync (a : Account) (pullStatus : Status) (pullDirty : Bool)
    (loadFn : Account → Account × Status) : Account × Status × Bool :=
  match pullStatus with
  | .error e => (a, .error e, false)
  | .ok =>
    if pullDirty then
      let r := loadFn a
      (r.1, r.2, true)
    else (a, .ok, false)

/-- A keyed repository descriptor as consumed by Account::create:
the per-purpose data key and the repository (sync) key. -/
structure RepoInfo where
  dataKey : List Nat
  syncKey : String
  deriving DecidableEq

/-- The session key material a Login owns (src/abcd/login/Login.hpp):
immutable after construction. -/
structure Login where
  masterKey : List Nat
  deriving DecidableEq

/-- Modelled from the spec: the implementation of Login::repoFind is
not under src (only its caller Account::create and the Login class
declaration are). The spec requires the repository identifier to be a
pure deterministic function of the session master key and the purpose
string; this model uses a concrete such function. -/
def repoIdDerive (masterKey : List Nat) (purpose : String) : String :=
  purpose ++ ":" ++ String.intercalate "," (masterKey.map (fun n => toString n))

/-- Modelled from the spec: the per-purpose data key, likewise a pure
function of the master key and the purpose. -/
def dataKeyDerive (masterKey : List Nat) (purpose : String) : List Nat :=
  masterKey ++ purpose.data.map Char.toNat

/-- Modelled from the spec: Login::repoFind derives the descriptor for
a purpose from the session master key alone; createIfMissing only
controls remote provisioning, not the derived identifiers. -/
def Login.repoFind (l : Login) (purpose : String) (_createIfMissing : Bool) :
    RepoInfo :=
  { dataKey := dataKeyDerive l.masterKey purpose
    syncKey := repoIdDerive l.masterKey purpose }

/-- Claim C3: for every combination of cached static fee table and live
fee estimates, the table returned by generalBitcoinFeeInfo is
non-increasing across the six confirmation targets. -/
theorem bitcoinFeeInfo_monotone (feeJson : BitcoinFeesJson)
    (est : EstimateFeesJson) :
    (bitcoinFeeInfoOf feeJson est).confirmFees2 ≤
      (bitcoinFeeInfoOf feeJson est).confirmFees1 ∧
    (bitcoinFeeInfoOf feeJson est).confirmFees3 ≤
      (bitcoinFeeInfoOf feeJson est).confirmFees2 ∧
    (bitcoinFeeInfoOf feeJson est).confirmFees4 ≤
      (bitcoinFeeInfoOf feeJson est).confirmFees3 ∧
    (bitcoinFeeInfoOf feeJson est).confirmFees5 ≤
      (bitcoinFeeInfoOf feeJson est).confirmFees4 ∧
    (bitcoinFeeInfoOf feeJson est).confirmFees6 ≤
      (bitcoinFeeInfoOf feeJson est).confirmFees5 := by
  unfold bitcoinFeeInfoOf confirmFeesClamp
  dsimp only
  refine ⟨?_, ?_, ?_, ?_, ?_⟩ <;> (split_ifs <;> omega)

/-- Claim C5: Account.sync returns a pull failure unchanged without
invoking load and leaves the in-memory wallets untouched; on a
successful pull it invokes load exactly when the pull reports dirty,
returning the reloaded state, and leaves the state untouched when the
pull is clean. -/
theorem account_sync_dirty_reload (a : Account)
    (loadFn : Account → Account × Status) (e : String) (d : Bool) :
    Account.sync a (.error e) d loadFn = (a, .error e, false) ∧
    Account.sync a .ok true loadFn = ((loadFn a).1, (loadFn a).2, true) ∧
    Account.sync a .ok false loadFn = (a, .ok, false) :=
  ⟨rfl, rfl, rfl⟩

/-- Claim C9: the fee-estimate document the aggregator persists always
leaves the bucket-6 field at its default 0, so the merged (pre-repair)
bucket-6 slot of the effective fee table is always the static cached
value whenever the live document was written by the aggregator, and
likewise for the default document loaded when the cache is missing. -/
theorem estimateFees_doc_frame (s : FeeState) (feeJson : BitcoinFeesJson) :
    (estimateFeesDocOf s).confirmFees6 = 0 ∧
    (confirmFeesMerge feeJson (estimateFeesDocOf s)).f6 =
      feeJson.confirmFees6 ∧
    (confirmFeesMerge feeJson {}).f6 = feeJson.confirmFees6 := by
  refine ⟨rfl, ?_, ?_⟩ <;> simp [confirmFeesMerge, estimateFeesDocOf]

/-- Claim C10: with the global context unset, generalLoad,
serverScoresLoad and estimateFeesLoad each return the default document,
leave the world untouched (no file read or written, no remote call),
and signal no error. -/
theorem loads_default_without_context (w : World)
    (h : w.gContext = false) :
    generalLoad w = ({}, w, false) ∧ serverScoresLoad w = [] ∧
    estimateFeesLoad w = {} := by
  unfold generalLoad serverScoresLoad estimateFeesLoad
  simp [h]

/-- Witness for C10 at a concrete world with the context unset. -/
theorem loads_default_without_context_witness :
    generalLoad { gContext := false } = ({}, { gContext := false }, false) ∧
    serverScoresLoad { gContext := false } = [] ∧
    estimateFeesLoad { gContext := false } = {} :=
  loads_default_without_context { gContext := false } rfl

/-- Claim C8: repoFind is deterministic and idempotent; any two Logins
holding the same master key obtain equal repository descriptors for the
same purpose, whatever the createIfMissing flags. Modelled from the
spec, since the repoFind implementation is not under src. -/
theorem repoFind_deterministic (l1 l2 : Login) (p : String)
    (c1 c2 : Bool) (h : l1.masterKey = l2.masterKey) :
    l1.repoFind p c1 = l2.repoFind p c2 := by
  unfold Login.repoFind
  rw [h]

/-- Witness for C8: two calls on the same master key agree. -/
theorem repoFind_deterministic_witness :
    (Login.mk [1, 2]).repoFind "account" true =
      (Login.mk [1, 2]).repoFind "account" false :=
  repoFind_deterministic (Login.mk [1, 2]) (Login.mk [1, 2]) "account"
    true false rfl

/-- Claim C7: with no cache file ever written and a failing remote
fetch, the bitcoin-server accessor returns the hard-coded fallback
list, the sync-server accessor returns the hard-coded fallback
endpoint, and the fee-table accessor returns the hard-coded default fee
values. -/
theorem accessors_defaults_on_fetch_failure (w : World)
    (hc : w.gContext = true) (hg : w.generalFile = none)
    (hr : w.remote = none) (hf : w.feeFile = none) :
    (generalBitcoinServers false w).1 = fallbackBitcoinServers ∧
    (generalSyncServers w).1 = [fallbackSyncServer] ∧
    (generalBitcoinFeeInfo w).1 =
      { confirmFees1 := 73210, confirmFees2 := 62110, confirmFees3 := 51098,
        confirmFees4 := 46001, confirmFees5 := 31002, confirmFees6 := 26002,
        lowFeeBlock := 4, standardFeeBlockLow := 3, standardFeeBlockHigh := 2,
        highFeeBlock := 1, targetFeePercentage := 0.25 } := by
  have hload : generalLoad w = ({}, w, true) := by
    unfold generalLoad generalUpdate
    simp [hc, hg, hr]
  have hest : estimateFeesLoad w = {} := by
    unfold estimateFeesLoad
    simp [hc, hf]
  refine ⟨?_, ?_, ?_⟩
  · unfold generalBitcoinServers
    rw [hload]
    rfl
  · unfold generalSyncServers
    rw [hload]
    rfl
  · unfold generalBitcoinFeeInfo
    rw [hload]
    dsimp only
    rw [hest]
    rfl

/-- Witness for C7 at a concrete world: context set, no files, failing
remote. -/
theorem accessors_defaults_witness :
    (generalBitcoinServers false { gContext := true }).1 =
      fallbackBitcoinServers ∧
    (generalSyncServers { gContext := true }).1 = [fallbackSyncServer] ∧
    (generalBitcoinFeeInfo { gContext := true }).1 =
      { confirmFees1 := 73210, confirmFees2 := 62110, confirmFees3 := 51098,
        confirmFees4 := 46001, confirmFees5 := 31002, confirmFees6 := 26002,
        lowFeeBlock := 4, standardFeeBlockLow := 3, standardFeeBlockHigh := 2,
        highFeeBlock := 1, targetFeePercentage := 0.25 } :=
  accessors_defaults_on_fetch_failure { gContext := true } rfl rfl rfl rfl

/-- Claim C4, corrected: the read path (generalLoad) triggers the
fetch-persist-load transition only when the cache file is absent; a
read with the file present, fresh or stale, serves the on-disk cache
with no remote call. When the file is absent, the triggered update
fetches, persists the fetched document stamped with the current time,
and the returned snapshot is read back from that persisted copy; when
the fetch fails the file stays absent and the default document is
served. The staleness threshold gates only generalUpdate itself: a
direct generalUpdate call does nothing when the file is younger than
the threshold and calls the remote service when it is older. -/
theorem generalLoad_fetch_iff_absent (w : World) (hc : w.gContext = true) :
    (∀ d t, w.generalFile = some (d, t) → generalLoad w = (d, w, false)) ∧
    (∀ doc, w.generalFile = none → w.remote = some doc →
      ∃ w2, generalLoad w = (doc, w2, true) ∧
        w2.generalFile = some (doc, w.now)) ∧
    (w.generalFile = none → w.remote = none →
      generalLoad w = ({}, w, true)) ∧
    (∀ d t, w.generalFile = some (d, t) →
      ¬ t + generalAcceptableInfoFileAgeSecs < w.now →
      generalUpdate w = (w, false, true)) ∧
    (∀ d t, w.generalFile = some (d, t) →
      t + generalAcceptableInfoFileAgeSecs < w.now →
      (generalUpdate w).2.1 = true) := by
  refine ⟨?_, ?_, ?_, ?_, ?_⟩
  · intro d t hg
    unfold generalLoad
    simp [hc, hg]
  · intro doc hg hr
    unfold generalLoad generalUpdate
    simp [hc, hg, hr]
  · intro hg hr
    unfold generalLoad generalUpdate
    simp [hc, hg, hr]
  · intro d t hg hfresh
    unfold generalUpdate
    simp [hg, hfresh]
  · intro d t hg hstale
    unfold generalUpdate
    cases hr : w.remote <;> simp [hg, hstale, hr]

/-- Counterexample for C4 as stated: a world whose cache file is
present but stale (written at time 0, read at time 100, threshold 2
seconds) and whose remote would serve a different document; the read
performs no remote call, changes nothing, and serves the old on-disk
document, contradicting the claim that a stale read fetches, persists
and reloads. -/
theorem generalLoad_stale_no_fetch :
    0 + generalAcceptableInfoFileAgeSecs < 100 ∧
    generalLoad
        { gContext := true, generalFile := some ({}, 0), now := 100,
          remote := some { bitcoinServers := [some "tcp://x"] } } =
      ({},
        { gContext := true, generalFile := some ({}, 0), now := 100,
          remote := some { bitcoinServers := [some "tcp://x"] } },
        false) ∧
    ({} : GeneralJson) ≠ { bitcoinServers := [some "tcp://x"] } := by
  refine ⟨by decide, ?_, by decide⟩
  unfold generalLoad
  simp

/-- Witness for C4 (amended): a present fresh file is served from disk
with no fetch, and an absent file with a reachable remote is fetched,
persisted at the current time, and served from the persisted copy. -/
theorem generalLoad_fetch_iff_absent_witness :
    generalLoad { gContext := true, generalFile := some ({}, 10), now := 11 } =
      ({}, { gContext := true, generalFile := some ({}, 10), now := 11 },
        false) ∧
    (∃ w2, generalLoad { gContext := true, remote := some {}, now := 5 } =
        ({}, w2, true) ∧ w2.generalFile = some ({}, 5)) :=
  ⟨(generalLoad_fetch_iff_absent
      { gContext := true, generalFile := some ({}, 10), now := 11 } rfl).1
      {} 10 rfl,
    (generalLoad_fetch_iff_absent
      { gContext := true, remote := some {}, now := 5 } rfl).2.1 {} rfl rfl⟩

lemma iequals_refl (u : String) : iequals u u = true := by
  simp [iequals]

/-- One step of the reconciliation fold, named for the proofs below. -/
def reconcileStep (acc : List ServerScoreJson) (entry : Option String) :
    List ServerScoreJson :=
  let serverUrlNew := entry.getD ""
  if acc.any (fun ssj => iequals ssj.serverUrl serverUrlNew) then acc
  else acc ++ [{ serverUrl := serverUrlNew, serverScore := 0 }]

lemma serverScoresReconcile_eq_foldl (scores : List ServerScoreJson)
    (servers : List (Option String)) :
    serverScoresReconcile scores servers = servers.foldl reconcileStep scores :=
  rfl

lemma serverScoresReconcile_append (servers : List (Option String)) :
    ∀ scores : List ServerScoreJson,
      ∃ tail, serverScoresReconcile scores servers = scores ++ tail ∧
        ∀ e ∈ tail, e.serverScore = 0 := by
  induction servers with
  | nil =>
    intro scores
    exact ⟨[], by simp [serverScoresReconcile], by simp⟩
  | cons h t ih =>
    intro scores
    rw [serverScoresReconcile_eq_foldl, List.foldl_cons,
      ← serverScoresReconcile_eq_foldl]
    by_cases hm :
        scores.any (fun ssj => iequals ssj.serverUrl (h.getD "")) = true
    · have hstep : reconcileStep scores h = scores := by
        unfold reconcileStep
        simp [hm]
      rw [hstep]
      exact ih scores
    · have hstep : reconcileStep scores h =
          scores ++ [{ serverUrl := h.getD "", serverScore := 0 }] := by
        unfold reconcileStep
        simp [hm]
      rw [hstep]
      obtain ⟨tail, htail, hzero⟩ :=
        ih (scores ++ [{ serverUrl := h.getD "", serverScore := 0 }])
      refine ⟨{ serverUrl := h.getD "", serverScore := 0 } :: tail, ?_, ?_⟩
      · rw [htail, List.append_assoc]
        rfl
      · intro e he
        rcases List.mem_cons.mp he with he | he
        · rw [he]
        · exact hzero e he

lemma mem_serverScoresReconcile (scores : List ServerScoreJson)
    (servers : List (Option String)) (e : ServerScoreJson)
    (h : e ∈ scores) : e ∈ serverScoresReconcile scores servers := by
  obtain ⟨tail, htail, _⟩ := serverScoresReconcile_append servers scores
  rw [htail]
  exact List.mem_append_left tail h

lemma serverScoresReconcile_covers (servers : List (Option String)) :
    ∀ (scores : List ServerScoreJson) (url : String),
      some url ∈ servers →
      ∃ e ∈ serverScoresReconcile scores servers,
        iequals e.serverUrl url = true := by
  induction servers with
  | nil =>
    intro scores url hmem
    cases hmem
  | cons h t ih =>
    intro scores url hmem
    rw [serverScoresReconcile_eq_foldl, List.foldl_cons,
      ← serverScoresReconcile_eq_foldl]
    rcases List.mem_cons.mp hmem with hh | ht
    · have hurl : h.getD "" = url := by rw [← hh]; rfl
      by_cases hm :
          scores.any (fun ssj => iequals ssj.serverUrl (h.getD "")) = true
      · obtain ⟨e, he, heq⟩ := List.any_eq_true.mp hm
        have hstep : reconcileStep scores h = scores := by
          unfold reconcileStep
          simp [hm]
        rw [hstep]
        refine ⟨e, mem_serverScoresReconcile scores t e he, ?_⟩
        rw [← hurl]
        exact heq
      · have hstep : reconcileStep scores h =
            scores ++ [{ serverUrl := h.getD "", serverScore := 0 }] := by
          unfold reconcileStep
          simp [hm]
        rw [hstep]
        refine ⟨{ serverUrl := h.getD "", serverScore := 0 },
          mem_serverScoresReconcile _ t _ (by simp), ?_⟩
        rw [show ({ serverUrl := h.getD "", serverScore := 0 } :
            ServerScoreJson).serverUrl = h.getD "" from rfl, hurl]
        exact iequals_refl url
    · exact ih (reconcileStep scores h) url ht

/-- Claim C6: reconciliation leaves the existing score list as an
untouched prefix, appends only zero-score records, gives every fetched
URL with no case-insensitive match among the existing records a
zero-score record in the result, and on the documented example turns
list [(A,5)] with fetched [A, B] into [(A,5), (B,0)]. -/
theorem serverScores_reconcile_spec (scores : List ServerScoreJson)
    (servers : List (Option String)) :
    (∃ tail, serverScoresReconcile scores servers = scores ++ tail ∧
      ∀ e ∈ tail, e.serverScore = 0) ∧
    (∀ url, some url ∈ servers →
      (∀ e ∈ scores, iequals e.serverUrl url = false) →
      ∃ e ∈ serverScoresReconcile scores servers,
        iequals e.serverUrl url = true ∧ e.serverScore = 0) ∧
    serverScoresReconcile [{ serverUrl := "A", serverScore := 5 }]
        [some "A", some "B"] =
      [{ serverUrl := "A", serverScore := 5 },
       { serverUrl := "B", serverScore := 0 }] := by
  refine ⟨serverScoresReconcile_append servers scores, ?_, by decide⟩
  intro url hmem hnone
  obtain ⟨e, he, heq⟩ := serverScoresReconcile_covers servers scores url hmem
  obtain ⟨tail, htail, hzero⟩ := serverScoresReconcile_append servers scores
  rw [htail] at he
  rcases List.mem_append.mp he with hs | hs
  · exact absurd heq (by simp [hnone e hs])
  · exact ⟨e, by rw [htail]; exact List.mem_append_right scores hs,
      heq, hzero e hs⟩

/-- Witness for C6: on the documented example, the fetched URL B, which
has no case-insensitive match among the existing records, receives a
zero-score record in the reconciled list. -/
theorem serverScores_reconcile_witness :
    ∃ e ∈ serverScoresReconcile [{ serverUrl := "A", serverScore := 5 }]
        [some "A", some "B"],
      iequals e.serverUrl "B" = true ∧ e.serverScore = 0 :=
  (serverScores_reconcile_spec [{ serverUrl := "A", serverScore := 5 }]
      [some "A", some "B"]).2.1 "B" (by simp) (by decide)

lemma feeStateLazyInit_flag (s : FeeState) :
    (feeStateLazyInit s).estimatedFeesInitialized = true := by
  unfold feeStateLazyInit
  split
  · assumption
  · rfl

lemma feeStateLazyInit_of_true (s : FeeState)
    (h : s.estimatedFeesInitialized = true) : feeStateLazyInit s = s := by
  unfold feeStateLazyInit
  simp [h]

lemma feeStateLazyInit_init : feeStateLazyInit feeStateInit = feeStateZero := by
  unfold feeStateLazyInit feeStateInit feeStateZero
  simp [ite_self]

lemma update_init_eq (blk smp : Nat) (f : Option EstimateFeesJson) :
    generalEstimateFeesUpdate blk smp feeStateInit f =
      generalEstimateFeesUpdate blk smp feeStateZero f := by
  unfold generalEstimateFeesUpdate
  rw [feeStateLazyInit_init, feeStateLazyInit_of_true feeStateZero rfl]

lemma update_initialized (blk smp : Nat) (s : FeeState)
    (f : Option EstimateFeesJson) :
    ((generalEstimateFeesUpdate blk smp s f).1).estimatedFeesInitialized =
      true := by
  unfold generalEstimateFeesUpdate
  dsimp only
  split <;> exact feeStateLazyInit_flag s

lemma update_fees_obs (blk smp : Nat) (s : FeeState)
    (f : Option EstimateFeesJson) (hs : s.estimatedFeesInitialized = true)
    (b : Nat) :
    (generalEstimateFeesUpdate blk smp s f).1.estimatedFees b =
      if b = blk then
        (s.estimatedFees blk * s.estimatedFeesNumResponses blk + smp) /
          (s.estimatedFeesNumResponses blk + 1)
      else s.estimatedFees b := by
  unfold generalEstimateFeesUpdate
  rw [feeStateLazyInit_of_true s hs]
  dsimp only
  split <;> rfl

lemma update_num_obs (blk smp : Nat) (s : FeeState)
    (f : Option EstimateFeesJson) (hs : s.estimatedFeesInitialized = true)
    (b : Nat) :
    (generalEstimateFeesUpdate blk smp s f).1.estimatedFeesNumResponses b =
      if b = blk then s.estimatedFeesNumResponses blk + 1
      else s.estimatedFeesNumResponses b := by
  unfold generalEstimateFeesUpdate
  rw [feeStateLazyInit_of_true s hs]
  dsimp only
  split <;> rfl

lemma update_pair_obs (blk smp : Nat) (s : FeeState)
    (f : Option EstimateFeesJson) (hs : s.estimatedFeesInitialized = true)
    (b : Nat) :
    ((generalEstimateFeesUpdate blk smp s f).1.estimatedFees b,
     (generalEstimateFeesUpdate blk smp s f).1.estimatedFeesNumResponses b) =
      if b = blk then
        runningMeanStep (s.estimatedFees b, s.estimatedFeesNumResponses b) smp
      else (s.estimatedFees b, s.estimatedFeesNumResponses b) := by
  rw [update_fees_obs blk smp s f hs b, update_num_obs blk smp s f hs b]
  by_cases hbk : b = blk
  · subst hbk
    simp [runningMeanStep]
  · simp [hbk]

lemma bucketSamples_cons (b : Nat) (p : Nat × Nat) (t : List (Nat × Nat)) :
    bucketSamples b (p :: t) =
      if p.1 = b then p.2 :: bucketSamples b t else bucketSamples b t := by
  unfold bucketSamples
  by_cases h : p.1 = b
  · simp [List.filter_cons, h]
  · simp [List.filter_cons, h]

lemma feesFold_bucket (b : Nat) (subs : List (Nat × Nat)) :
    ∀ sf : FeeState × Option EstimateFeesJson,
      sf.1.estimatedFeesInitialized = true →
      ((subs.foldl feesStep sf).1.estimatedFees b,
       (subs.foldl feesStep sf).1.estimatedFeesNumResponses b) =
        (bucketSamples b subs).foldl runningMeanStep
          (sf.1.estimatedFees b, sf.1.estimatedFeesNumResponses b) := by
  induction subs with
  | nil =>
    intro sf _
    rfl
  | cons p t ih =>
    intro sf h
    rw [List.foldl_cons,
      ih (feesStep sf p) (update_initialized p.1 p.2 sf.1 sf.2),
      bucketSamples_cons]
    by_cases hbk : p.1 = b
    · rw [if_pos hbk, List.foldl_cons]
      congr 1
      rw [show ((feesStep sf p).1.estimatedFees b,
            (feesStep sf p).1.estimatedFeesNumResponses b) =
          if b = p.1 then
            runningMeanStep
              (sf.1.estimatedFees b, sf.1.estimatedFeesNumResponses b) p.2
          else (sf.1.estimatedFees b, sf.1.estimatedFeesNumResponses b)
          from update_pair_obs p.1 p.2 sf.1 sf.2 h b,
        if_pos hbk.symm]
    · rw [if_neg hbk]
      congr 1
      rw [show ((feesStep sf p).1.estimatedFees b,
            (feesStep sf p).1.estimatedFeesNumResponses b) =
          if b = p.1 then
            runningMeanStep
              (sf.1.estimatedFees b, sf.1.estimatedFeesNumResponses b) p.2
          else (sf.1.estimatedFees b, sf.1.estimatedFeesNumResponses b)
          from update_pair_obs p.1 p.2 sf.1 sf.2 h b,
        if_neg (fun hh => hbk hh.symm)]

/-- Claim C1, amended: after any submission sequence, the stored mean
and count of a bucket are the truncated running mean, folded in
submission order with the unsigned integer division of the source, of
exactly the base-unit samples sent to that bucket, unaffected by
interleaved submissions to other buckets; submitting samples 10, 20, 30
(in base units) to bucket 3 does yield mean 20. The stored value is not
in general the exact arithmetic mean of the samples. -/
theorem estimateFees_bucket_mean (subs : List (Nat × Nat)) (b : Nat) :
    ((feesRun subs).1.estimatedFees b,
     (feesRun subs).1.estimatedFeesNumResponses b) =
      runningMean (bucketSamples b subs) ∧
    (feesRun [(3, 1000000000), (3, 2000000000),
        (3, 3000000000)]).1.estimatedFees 3 = 2000000000 := by
  constructor
  · cases subs with
    | nil => rfl
    | cons p t =>
      have hrun : feesRun (p :: t) =
          (p :: t).foldl feesStep (feeStateZero, none) := by
        show (p :: t).foldl feesStep (feeStateInit, none) = _
        rw [List.foldl_cons, List.foldl_cons]
        exact congrArg (fun st => List.foldl feesStep st t)
          (update_init_eq p.1 p.2 none)
      rw [hrun, feesFold_bucket b (p :: t) (feeStateZero, none) rfl]
      rfl
  · decide

/-- Counterexample for C1 as stated: submitting the base-unit samples
100000000, 100000000, 200000000 (fees 1.0, 1.0, 2.0, whose base-unit
conversion is exact) to bucket 3 stores 133333333, which is not the
arithmetic mean 400000000 / 3 of the submitted base-unit samples. -/
theorem estimateFees_not_arithmetic_mean :
    (feesRun [(3, 100000000), (3, 100000000),
        (3, 200000000)]).1.estimatedFees 3 = 133333333 ∧
    ¬ (((feesRun [(3, 100000000), (3, 100000000),
          (3, 200000000)]).1.estimatedFees 3 : ℚ) =
        (100000000 + 100000000 + 200000000 : ℚ) / 3) := by
  have h : (feesRun [(3, 100000000), (3, 100000000),
      (3, 200000000)]).1.estimatedFees 3 = 133333333 := by decide
  refine ⟨h, ?_⟩
  rw [h]
  norm_num

lemma allBucketMeansPositive_iff (s : FeeState) :
    allBucketMeansPositive s ↔
      ∀ b, 1 ≤ b → b ≤ 5 → 0 < s.estimatedFees b := by
  unfold allBucketMeansPositive
  constructor
  · rintro ⟨h1, h2, h3, h4, h5⟩ b hb1 hb5
    interval_cases b <;> assumption
  · intro h
    exact ⟨h 1 (by omega) (by omega), h 2 (by omega) (by omega),
      h 3 (by omega) (by omega), h 4 (by omega) (by omega),
      h 5 (by omega) (by omega)⟩

/-- Per-bucket invariant of the aggregator run: an untouched bucket has
mean zero, and a touched bucket fed only positive samples has a
positive mean. -/
def bucketInv (s : FeeState) : Prop :=
  ∀ b, 1 ≤ b → b ≤ 5 →
    (s.estimatedFeesNumResponses b = 0 → s.estimatedFees b = 0) ∧
    (1 ≤ s.estimatedFeesNumResponses b → 1 ≤ s.estimatedFees b)

/-- File invariant of the aggregator run: the fee cache file holds the
document of the current means when all five means are positive, and is
absent otherwise. -/
def fileInv (s : FeeState) (f : Option EstimateFeesJson) : Prop :=
  (allBucketMeansPositive s → f = some (estimateFeesDocOf s)) ∧
  (¬ allBucketMeansPositive s → f = none)

lemma one_le_truncStep (mean count smp : Nat) (hsmp : 1 ≤ smp)
    (h : 1 ≤ count → 1 ≤ mean) :
    1 ≤ (mean * count + smp) / (count + 1) := by
  apply Nat.div_pos ?_ (Nat.succ_pos count)
  rcases Nat.eq_zero_or_pos count with h0 | hpos
  · subst h0
    simpa using hsmp
  · have h1 : 1 ≤ mean := h hpos
    have h2 : count ≤ mean * count := by
      simpa using Nat.mul_le_mul_right count h1
    exact Nat.add_le_add h2 hsmp

lemma update_cases (blk smp : Nat) (s : FeeState)
    (f : Option EstimateFeesJson) (hs : s.estimatedFeesInitialized = true) :
    (allBucketMeansPositive (generalEstimateFeesUpdate blk smp s f).1 ∧
      (generalEstimateFeesUpdate blk smp s f).2 =
        some (estimateFeesDocOf (generalEstimateFeesUpdate blk smp s f).1)) ∨
    (¬ allBucketMeansPositive (generalEstimateFeesUpdate blk smp s f).1 ∧
      (generalEstimateFeesUpdate blk smp s f).2 = f) := by
  unfold generalEstimateFeesUpdate
  rw [feeStateLazyInit_of_true s hs]
  dsimp only
  split
  · left
    exact ⟨by assumption, rfl⟩
  · right
    exact ⟨by assumption, rfl⟩

lemma update_step_inv (blk smp : Nat) (s : FeeState)
    (f : Option EstimateFeesJson) (hs : s.estimatedFeesInitialized = true)
    (hblk1 : 1 ≤ blk) (hblk5 : blk ≤ 5) (hsmp : 1 ≤ smp)
    (hbinv : bucketInv s) (hfinv : fileInv s f) :
    bucketInv (generalEstimateFeesUpdate blk smp s f).1 ∧
    fileInv (generalEstimateFeesUpdate blk smp s f).1
      (generalEstimateFeesUpdate blk smp s f).2 := by
  have hbinv2 : bucketInv (generalEstimateFeesUpdate blk smp s f).1 := by
    intro b h1 h5
    rw [update_fees_obs blk smp s f hs b, update_num_obs blk smp s f hs b]
    by_cases hbk : b = blk
    · subst hbk
      rw [if_pos rfl, if_pos rfl]
      constructor
      · intro h0
        exact absurd h0 (by omega)
      · intro _
        exact one_le_truncStep _ _ _ hsmp (hbinv b h1 h5).2
    · rw [if_neg hbk, if_neg hbk]
      exact hbinv b h1 h5
  refine ⟨hbinv2, ?_⟩
  rcases update_cases blk smp s f hs with ⟨hpos, heq⟩ | ⟨hneg, heq⟩
  · exact ⟨fun _ => heq, fun hn => absurd hpos hn⟩
  · refine ⟨fun hp => absurd hp hneg, fun _ => ?_⟩
    rw [heq]
    apply hfinv.2
    intro hposS
    apply hneg
    rw [allBucketMeansPositive_iff] at hposS ⊢
    intro b h1 h5
    rw [update_fees_obs blk smp s f hs b]
    by_cases hbk : b = blk
    · subst hbk
      rw [if_pos rfl]
      exact one_le_truncStep _ _ _ hsmp (hbinv b h1 h5).2
    · rw [if_neg hbk]
      exact hposS b h1 h5

lemma feesFold_inv (subs : List (Nat × Nat)) :
    ∀ sf : FeeState × Option EstimateFeesJson,
      sf.1.estimatedFeesInitialized = true →
      (∀ p ∈ subs, (1 ≤ p.1 ∧ p.1 ≤ 5) ∧ 1 ≤ p.2) →
      bucketInv sf.1 → fileInv sf.1 sf.2 →
      bucketInv (subs.foldl feesStep sf).1 ∧
      fileInv (subs.foldl feesStep sf).1 (subs.foldl feesStep sf).2 := by
  induction subs with
  | nil =>
    intro sf _ _ h3 h4
    exact ⟨h3, h4⟩
  | cons p t ih =>
    intro sf h1 hall h3 h4
    rw [List.foldl_cons]
    have hp := hall p (List.mem_cons_self p t)
    have hstep := update_step_inv p.1 p.2 sf.1 sf.2 h1 hp.1.1 hp.1.2 hp.2 h3 h4
    exact ih (feesStep sf p) (update_initialized p.1 p.2 sf.1 sf.2)
      (fun q hq => hall q (List.mem_cons_of_mem p hq)) hstep.1 hstep.2

/-- Claim C2, amended: with every submission aimed at buckets 1 to 5
and carrying a positive base-unit sample, the run persists the derived
document exactly when, after the in-memory update, every bucket has a
strictly positive stored mean, which under these positive samples
coincides with every bucket having received at least one sample; and
whenever the cache file is present it holds the document of the latest
means, so every completing update re-persists them. The source gates on
positive means, not on counts, so a zero-valued sample keeps the gate
shut (see the counterexample). -/
theorem estimateFees_persist_iff_means_positive (subs : List (Nat × Nat))
    (hsubs : ∀ p ∈ subs, (1 ≤ p.1 ∧ p.1 ≤ 5) ∧ 1 ≤ p.2) :
    ((feesRun subs).2 = some (estimateFeesDocOf (feesRun subs).1) ↔
      ∀ b, 1 ≤ b → b ≤ 5 →
        1 ≤ (feesRun subs).1.estimatedFeesNumResponses b) ∧
    ((feesRun subs).2 = none ∨
      (feesRun subs).2 = some (estimateFeesDocOf (feesRun subs).1)) := by
  cases subs with
  | nil =>
    refine ⟨⟨fun h => ?_, fun h => ?_⟩, Or.inl rfl⟩
    · exact absurd h (by simp [feesRun])
    · exact absurd (h 1 (by omega) (by omega)) (by decide)
  | cons p t =>
    have hrun : feesRun (p :: t) =
        (p :: t).foldl feesStep (feeStateZero, none) := by
      show (p :: t).foldl feesStep (feeStateInit, none) = _
      rw [List.foldl_cons, List.foldl_cons]
      exact congrArg (fun st => List.foldl feesStep st t)
        (update_init_eq p.1 p.2 none)
    have hbz : bucketInv feeStateZero := by
      intro b _ _
      exact ⟨fun _ => rfl, fun h => absurd h (by simp [feeStateZero])⟩
    have hfz : fileInv feeStateZero none :=
      ⟨fun hpos => absurd hpos (by decide), fun _ => rfl⟩
    obtain ⟨hbI, hfI⟩ :=
      feesFold_inv (p :: t) (feeStateZero, none) rfl hsubs hbz hfz
    rw [hrun]
    constructor
    · constructor
      · intro hsome b h1 h5
        by_contra hlt
        have hz : ((p :: t).foldl feesStep
            (feeStateZero, none)).1.estimatedFees b = 0 :=
          (hbI b h1 h5).1 (by omega)
        have hnp : ¬ allBucketMeansPositive
            ((p :: t).foldl feesStep (feeStateZero, none)).1 := by
          rw [allBucketMeansPositive_iff]
          intro hall
          have := hall b h1 h5
          omega
        rw [hfI.2 hnp] at hsome
        exact Option.noConfusion hsome
      · intro hcounts
        apply hfI.1
        rw [allBucketMeansPositive_iff]
        intro b h1 h5
        exact (hbI b h1 h5).2 (hcounts b h1 h5)
    · by_cases hpos : allBucketMeansPositive
          ((p :: t).foldl feesStep (feeStateZero, none)).1
      · exact Or.inr (hfI.1 hpos)
      · exact Or.inl (hfI.2 hpos)

/-- Counterexample for C2 as stated: submitting one zero-fee sample to
each of the five buckets gives every bucket a sample (all counts are
one), yet no document is persisted, because the source gates
persistence on positive means, not on counts. -/
theorem estimateFees_no_persist_on_zero_samples :
    (feesRun [(1, 0), (2, 0), (3, 0), (4, 0),
        (5, 0)]).1.estimatedFeesNumResponses 1 = 1 ∧
    (feesRun [(1, 0), (2, 0), (3, 0), (4, 0),
        (5, 0)]).1.estimatedFeesNumResponses 2 = 1 ∧
    (feesRun [(1, 0), (2, 0), (3, 0), (4, 0),
        (5, 0)]).1.estimatedFeesNumResponses 3 = 1 ∧
    (feesRun [(1, 0), (2, 0), (3, 0), (4, 0),
        (5, 0)]).1.estimatedFeesNumResponses 4 = 1 ∧
    (feesRun [(1, 0), (2, 0), (3, 0), (4, 0),
        (5, 0)]).1.estimatedFeesNumResponses 5 = 1 ∧
    (feesRun [(1, 0), (2, 0), (3, 0), (4, 0), (5, 0)]).2 = none := by
  refine ⟨?_, ?_, ?_, ?_, ?_, ?_⟩ <;> decide

/-- Witness for C2 (amended): five positive submissions, one per
bucket, complete the buckets and persist the document of the current
means. -/
theorem estimateFees_persist_witness :
    (feesRun [(1, 2), (2, 2), (3, 2), (4, 2), (5, 2)]).2 =
      some (estimateFeesDocOf
        (feesRun [(1, 2), (2, 2), (3, 2), (4, 2), (5, 2)]).1) :=
  (estimateFees_persist_iff_means_positive
      [(1, 2), (2, 2), (3, 2), (4, 2), (5, 2)] (by decide)).1.mpr
    (by intro b h1 h5; interval_cases b <;> decide)

end Abcd
